import Mathlib

/-!
Shallow embedding of the trading-journal bot's core modules
(`bitunix.py`, `db.py`): the request signer, the exchange-client
response validation, the trade normalizer, and the journal store
(credential upsert and idempotent trade insert).

Modelling conventions:
* Python/JSON numbers are exact: integers are `Int`, float results of
  coercion are `PyFloat` over `Rat`.  IEEE rounding/overflow is not
  modelled (the code performs no float arithmetic, only coercion and
  storage).
* JSON objects are association lists with distinct keys; lookup takes
  the first match, which agrees with Python dicts.
* Fallible Python operations become `Option`/`Except`; `try/except`
  blocks become `Option.getD`.
-/

/-- Python float values as produced by `float(...)` coercion: exact
rationals stand in for IEEE doubles, plus the special values that
`float("inf")` / `float("nan")` produce. -/
inductive PyFloat where
  | finite (q : ℚ)
  | inf
  | ninf
  | nan
deriving DecidableEq, Repr

/-- JSON values as produced by `json.loads`.  Numbers are modelled as
integers: every numeric literal this code path receives (status codes,
timestamps, ids) is an integer, and decimal quantities arrive as
strings. -/
inductive JValue where
  | null
  | bool (b : Bool)
  | num (n : ℤ)
  | str (s : String)
  | arr (elems : List JValue)
  | obj (fields : List (String × JValue))
deriving Repr

/-- Python `dict.get(k)`: `none` when the key is absent. -/
def jget (fields : List (String × JValue)) (k : String) : Option JValue :=
  (fields.find? (fun kv => kv.1 == k)).map (fun kv => kv.2)

/-- Python truthiness of a JSON value (`bool(v)`). -/
def jTruthy : JValue → Bool
  | .null => false
  | .bool b => b
  | .num n => n != 0
  | .str s => s != ""
  | .arr xs => !xs.isEmpty
  | .obj fs => !fs.isEmpty

mutual

/-- Python `repr` of a JSON value (used by `str` on lists/dicts).
String escaping inside `repr` is not modelled (no caller in the
embedded code feeds quotes through `repr`). -/
def pyRepr : JValue → String
  | .null => "None"
  | .bool b => if b then "True" else "False"
  | .num n => toString n
  | .str s => "'" ++ s ++ "'"
  | .arr xs => "[" ++ pyReprSeq xs ++ "]"
  | .obj fs => "\x7b" ++ pyReprFields fs ++ "\x7d"

/-- Comma-space separated `repr`s of list elements. -/
def pyReprSeq : List JValue → String
  | [] => ""
  | [x] => pyRepr x
  | x :: y :: xs => pyRepr x ++ ", " ++ pyReprSeq (y :: xs)

/-- Comma-space separated `repr`s of dict entries. -/
def pyReprFields : List (String × JValue) → String
  | [] => ""
  | [kv] => "'" ++ kv.1 ++ "': " ++ pyRepr kv.2
  | kv :: kv₂ :: fs => "'" ++ kv.1 ++ "': " ++ pyRepr kv.2 ++ ", " ++ pyReprFields (kv₂ :: fs)

end

/-- Python `str(v)` for a JSON value. -/
def pyStr : JValue → String
  | .null => "None"
  | .bool b => if b then "True" else "False"
  | .num n => toString n
  | .str s => s
  | .arr xs => pyRepr (.arr xs)
  | .obj fs => pyRepr (.obj fs)

/-- One lowercase hexadecimal digit. -/
def hexDigit (n : Nat) : Char :=
  if n < 10 then Char.ofNat (48 + n) else Char.ofNat (87 + n)

/-- Four lowercase hex digits, big-endian (for `\uXXXX` escapes). -/
def hex4 (n : Nat) : String :=
  String.mk ((List.range 4).map (fun i => hexDigit ((n >>> (4 * (3 - i))) &&& 0xF)))

/-- `json.dumps` escaping of one character with the default
`ensure_ascii=True`: short escapes for the usual controls, `\uXXXX`
(with surrogate pairs beyond the BMP) for other controls and all
non-ASCII. -/
def jsonEscapeChar (c : Char) : String :=
  let n := c.toNat
  if n = 34 then "\\\""
  else if n = 92 then "\\\\"
  else if n = 8 then "\\b"
  else if n = 9 then "\\t"
  else if n = 10 then "\\n"
  else if n = 12 then "\\f"
  else if n = 13 then "\\r"
  else if n < 32 then "\\u" ++ hex4 n
  else if n ≤ 126 then String.singleton c
  else if n < 65536 then "\\u" ++ hex4 n
  else
    let s := n - 65536
    "\\u" ++ hex4 (55296 + (s >>> 10)) ++ "\\u" ++ hex4 (56320 + (s &&& 1023))

/-- `json.dumps` of a string (quoted, escaped). -/
def dumpJsonString (s : String) : String :=
  "\"" ++ String.join (s.data.map jsonEscapeChar) ++ "\""

mutual

/-- `json.dumps(v, separators=(",", ":"))`: compact JSON serialization
as used for request bodies and the `raw_json` audit column. -/
def dumpJson : JValue → String
  | .null => "null"
  | .bool b => if b then "true" else "false"
  | .num n => toString n
  | .str s => dumpJsonString s
  | .arr xs => "[" ++ dumpJsonSeq xs ++ "]"
  | .obj fs => "\x7b" ++ dumpJsonFields fs ++ "\x7d"

/-- Comma separated serializations of array elements. -/
def dumpJsonSeq : List JValue → String
  | [] => ""
  | [x] => dumpJson x
  | x :: y :: xs => dumpJson x ++ "," ++ dumpJsonSeq (y :: xs)

/-- Comma separated serializations of object entries. -/
def dumpJsonFields : List (String × JValue) → String
  | [] => ""
  | [kv] => dumpJsonString kv.1 ++ ":" ++ dumpJson kv.2
  | kv :: kv₂ :: fs => dumpJsonString kv.1 ++ ":" ++ dumpJson kv.2 ++ "," ++ dumpJsonFields (kv₂ :: fs)

end

/-- Python string comparison on the underlying character lists:
lexicographic on code points, a proper prefix sorting first. -/
def charListLt : List Char → List Char → Bool
  | [], [] => false
  | [], _ :: _ => true
  | _ :: _, [] => false
  | a :: as, b :: bs =>
    if a.toNat < b.toNat then true
    else if b.toNat < a.toNat then false
    else charListLt as bs

/-- Python `s < t` on strings. -/
def strLt (s t : String) : Bool := charListLt s.data t.data

/-- Python tuple `<=` on the `(str(k), str(v))` pairs handed to
`sorted` in `canonical_query`: lexicographic on the two strings. -/
def pairLe (p q : String × String) : Bool :=
  strLt p.1 q.1 || (p.1 == q.1 && (strLt p.2 q.2 || p.2 == q.2))

/-- The ordering relation `sorted(...)` sorts by, as a `Prop`. -/
def pairLeR (p q : String × String) : Prop := pairLe p q = true

instance : DecidableRel pairLeR :=
  fun p q => inferInstanceAs (Decidable (pairLe p q = true))

/-- `canonical_query` (bitunix.py lines 17-22): empty/absent mapping
canonicalizes to `""`; otherwise sort the `(str(k), "" if v is None
else str(v))` pairs (a stable sort, as Python's `sorted`) and
concatenate `key ++ value` with no separators. -/
def canonical_query (params : Option (List (String × JValue))) : String :=
  match params with
  | none => ""
  | some ps =>
    if ps.isEmpty then ""
    else
      let items := (ps.map (fun kv =>
        (kv.1, match kv.2 with | .null => "" | v => pyStr v))).insertionSort pairLeR
      String.join (items.map (fun kv => kv.1 ++ kv.2))

/-! ### SHA-256 (hashlib.sha256, FIPS 180-4), on `Nat` mod `2^32` -/

/-- Reduce to a 32-bit word. -/
def w32 (n : Nat) : Nat := n % 4294967296

/-- Right rotation of a 32-bit word. -/
def rotr32 (k x : Nat) : Nat := w32 ((x >>> k) ||| (x <<< (32 - k)))

/-- UTF-8 encoding of one code point (`str.encode("utf-8")`). -/
def utf8EncodeChar (c : Nat) : List Nat :=
  if c < 128 then [c]
  else if c < 2048 then
    [192 ||| (c >>> 6), 128 ||| (c &&& 63)]
  else if c < 65536 then
    [224 ||| (c >>> 12), 128 ||| ((c >>> 6) &&& 63), 128 ||| (c &&& 63)]
  else
    [240 ||| (c >>> 18), 128 ||| ((c >>> 12) &&& 63),
     128 ||| ((c >>> 6) &&& 63), 128 ||| (c &&& 63)]

/-- UTF-8 bytes of a string. -/
def utf8Bytes (s : String) : List Nat :=
  s.data.flatMap (fun c => utf8EncodeChar c.toNat)

/-- SHA-256 round constants (FIPS 180-4, in decimal). -/
def sha256K : Array Nat := #[
  1116352408, 1899447441, 3049323471, 3921009573, 961987163,
  1508970993, 2453635748, 2870763221, 3624381080, 310598401,
  607225278, 1426881987, 1925078388, 2162078206, 2614888103,
  3248222580, 3835390401, 4022224774, 264347078, 604807628,
  770255983, 1249150122, 1555081692, 1996064986, 2554220882,
  2821834349, 2952996808, 3210313671, 3336571891, 3584528711,
  113926993, 338241895, 666307205, 773529912, 1294757372,
  1396182291, 1695183700, 1986661051, 2177026350, 2456956037,
  2730485921, 2820302411, 3259730800, 3345764771, 3516065817,
  3600352804, 4094571909, 275423344, 430227734, 506948616,
  659060556, 883997877, 958139571, 1322822218, 1537002063,
  1747873779, 1955562222, 2024104815, 2227730452, 2361852424,
  2428436474, 2756734187, 3204031479, 3329325298]

/-- SHA-256 initial hash state (FIPS 180-4, in decimal). -/
def sha256H0 : Array Nat := #[
  1779033703, 3144134277, 1013904242, 2773480762,
  1359893119, 2600822924, 528734635, 1541459225]

/-- Big-endian 32-bit words of one 64-byte block. -/
def blockWords (block : List Nat) : Array Nat := Id.run do
  let b := block.toArray
  let mut w : Array Nat := #[]
  for i in [0:16] do
    w := w.push (w32 ((b.getD (4 * i) 0 <<< 24) ||| (b.getD (4 * i + 1) 0 <<< 16) |||
      (b.getD (4 * i + 2) 0 <<< 8) ||| b.getD (4 * i + 3) 0))
  return w

/-- Extend 16 schedule words to 64. -/
def sha256ExtendW (w0 : Array Nat) : Array Nat := Id.run do
  let mut w := w0
  for i in [16:64] do
    let x15 := w.getD (i - 15) 0
    let x2 := w.getD (i - 2) 0
    let s0 := rotr32 7 x15 ^^^ rotr32 18 x15 ^^^ (x15 >>> 3)
    let s1 := rotr32 17 x2 ^^^ rotr32 19 x2 ^^^ (x2 >>> 10)
    w := w.push (w32 (w.getD (i - 16) 0 + s0 + w.getD (i - 7) 0 + s1))
  return w

/-- One SHA-256 compression step over a 64-byte block. -/
def sha256Compress (h0 : Array Nat) (block : List Nat) : Array Nat := Id.run do
  let w := sha256ExtendW (blockWords block)
  let mut a := h0.getD 0 0
  let mut b := h0.getD 1 0
  let mut c := h0.getD 2 0
  let mut d := h0.getD 3 0
  let mut e := h0.getD 4 0
  let mut f := h0.getD 5 0
  let mut g := h0.getD 6 0
  let mut hh := h0.getD 7 0
  for i in [0:64] do
    let s1 := rotr32 6 e ^^^ rotr32 11 e ^^^ rotr32 25 e
    let ch := (e &&& f) ^^^ ((e ^^^ 0xffffffff) &&& g)
    let t1 := w32 (hh + s1 + ch + sha256K.getD i 0 + w.getD i 0)
    let s0 := rotr32 2 a ^^^ rotr32 13 a ^^^ rotr32 22 a
    let mj := (a &&& b) ^^^ (a &&& c) ^^^ (b &&& c)
    let t2 := w32 (s0 + mj)
    hh := g
    g := f
    f := e
    e := w32 (d + t1)
    d := c
    c := b
    b := a
    a := w32 (t1 + t2)
  return #[w32 (h0.getD 0 0 + a), w32 (h0.getD 1 0 + b), w32 (h0.getD 2 0 + c),
    w32 (h0.getD 3 0 + d), w32 (h0.getD 4 0 + e), w32 (h0.getD 5 0 + f),
    w32 (h0.getD 6 0 + g), w32 (h0.getD 7 0 + hh)]

/-- SHA-256 padding: `0x80`, zeros to 56 mod 64, 8-byte big-endian bit length. -/
def sha256Pad (msg : List Nat) : List Nat :=
  let len := msg.length
  let zeros := (119 - len % 64) % 64
  msg ++ [128] ++ List.replicate zeros 0 ++
    ((List.range 8).map (fun i => ((len * 8) >>> (8 * (7 - i))) &&& 255))

/-- Fold the compression function over successive 64-byte blocks. -/
def sha256Blocks (h : Array Nat) : List Nat → Array Nat
  | [] => h
  | b :: rest => sha256Blocks (sha256Compress h ((b :: rest).take 64)) ((b :: rest).drop 64)
termination_by l => l.length
decreasing_by
  simp only [List.length_drop, List.length_cons]
  omega

/-- Eight lowercase hex digits of a 32-bit word. -/
def word2hex (w : Nat) : String :=
  String.mk ((List.range 8).map (fun i => hexDigit ((w >>> (4 * (7 - i))) &&& 0xF)))

/-- `hashlib.sha256(s.encode("utf-8")).hexdigest()`. -/
def sha256hex (s : String) : String :=
  let digest := sha256Blocks sha256H0 (sha256Pad (utf8Bytes s))
  String.join ((List.range 8).map (fun i => word2hex (digest.getD i 0)))

/-- `make_sign` (bitunix.py lines 31-42): double SHA-256 over the
concatenated request material, then the first digest plus the secret. -/
def make_sign (api_key api_secret nonce timestamp query_canon body_str : String) : String :=
  let raw := nonce ++ timestamp ++ api_key ++ query_canon ++ body_str
  let first_hash := sha256hex raw
  let final_hash := sha256hex (first_hash ++ api_secret)
  final_hash

/-! ### Python numeric coercion (`float(...)`, `int(...)`) -/

/-- ASCII decimal digit test. -/
def isDigitChar (c : Char) : Bool := 48 ≤ c.toNat && c.toNat ≤ 57

/-- Value of a digit string. -/
def digitsVal (l : List Char) : Nat :=
  l.foldl (fun a c => 10 * a + (c.toNat - 48)) 0

/-- Leading digits and the remainder. -/
def splitDigits (cs : List Char) : List Char × List Char :=
  (cs.takeWhile isDigitChar, cs.dropWhile isDigitChar)

/-- Exponent part after `e`/`E`: optional sign then digits. -/
def parseExp (cs : List Char) : Option Int :=
  let (eneg, cs₁) := match cs with
    | '+' :: r => (false, r)
    | '-' :: r => (true, r)
    | r => (false, r)
  let (ds, rest) := splitDigits cs₁
  if ds.isEmpty || !rest.isEmpty then none
  else some (if eneg then -(digitsVal ds : Int) else (digitsVal ds : Int))

/-- Decimal part of a Python float literal: digits, optional point and
fraction digits (at least one digit overall), optional exponent.
Digit-group underscores are not modelled. -/
def parseDecimal (neg : Bool) (cs : List Char) : Option PyFloat :=
  let (ip, rest) := splitDigits cs
  let (fp, rest₂) := match rest with
    | '.' :: r => splitDigits r
    | r => (([] : List Char), r)
  if ip.isEmpty && fp.isEmpty then none
  else
    let withExp : Option Int := match rest₂ with
      | [] => some 0
      | 'e' :: r => parseExp r
      | 'E' :: r => parseExp r
      | _ => none
    match withExp with
    | none => none
    | some ex =>
      let mag : ℚ := ((digitsVal ip : ℚ) + (digitsVal fp : ℚ) / (10 : ℚ) ^ fp.length) *
        (10 : ℚ) ^ ex
      some (.finite (if neg then -mag else mag))

/-- ASCII whitespace test for Python `str.strip()` (the Unicode
whitespace Python also strips does not occur in this data). -/
def isPySpace (c : Char) : Bool :=
  c.toNat = 32 || (9 ≤ c.toNat && c.toNat ≤ 13)

/-- Strip leading and trailing whitespace from a character list. -/
def stripChars (cs : List Char) : List Char :=
  ((cs.dropWhile isPySpace).reverse.dropWhile isPySpace).reverse

/-- Python `float(s)` on a string: strip whitespace, optional sign,
`inf`/`infinity`/`nan` (case-insensitive) or a decimal literal. -/
def pyParseFloat (s : String) : Option PyFloat :=
  let cs := stripChars s.data
  let (neg, cs₁) := match cs with
    | '+' :: r => (false, r)
    | '-' :: r => (true, r)
    | r => (false, r)
  let low := cs₁.map Char.toLower
  if low == ['i', 'n', 'f'] || low == ['i', 'n', 'f', 'i', 'n', 'i', 't', 'y'] then
    some (if neg then .ninf else .inf)
  else if low == ['n', 'a', 'n'] then some .nan
  else if cs₁.isEmpty then none
  else parseDecimal neg cs₁

/-- Python `int(s)` on a string: strip whitespace, optional sign,
decimal digits only. -/
def pyParseInt (s : String) : Option Int :=
  let cs := stripChars s.data
  let (neg, cs₁) := match cs with
    | '+' :: r => (false, r)
    | '-' :: r => (true, r)
    | r => (false, r)
  let (ds, rest) := splitDigits cs₁
  if ds.isEmpty || !rest.isEmpty then none
  else some (if neg then -(digitsVal ds : Int) else (digitsVal ds : Int))

/-- Python `float(value)` over the JSON universe plus `None` for an
absent key: `some` on success, `none` where Python raises
`TypeError`/`ValueError`. -/
def pyFloat? : Option JValue → Option PyFloat
  | some (.num n) => some (.finite n)
  | some (.bool b) => some (.finite (if b then 1 else 0))
  | some (.str s) => pyParseFloat s
  | _ => none

/-- Python `int(value)` over the JSON universe plus `None`. -/
def pyInt? : Option JValue → Option Int
  | some (.num n) => some n
  | some (.bool b) => some (if b then 1 else 0)
  | some (.str s) => pyParseInt s
  | _ => none

/-- `_to_float` (bitunix.py lines 112-116): tolerant float coercion,
substituting the default on `TypeError`/`ValueError`. -/
def _to_float (value : Option JValue) (default : PyFloat) : PyFloat :=
  (pyFloat? value).getD default

/-- `_to_int` (bitunix.py lines 119-123): tolerant int coercion,
substituting the default on `TypeError`/`ValueError`. -/
def _to_int (value : Option JValue) (default : Int) : Int :=
  (pyInt? value).getD default

/-! ### Exchange client: response envelope validation and request flow -/

/-- Failure taxonomy of `bitunix_request` (all raised as `Exception`
in the source; distinguished here by the message each branch builds). -/
inductive BitunixError where
  | unregistered
  | httpError (status : Nat) (excerpt : String)
  | invalidJson (excerpt : String)
  | unexpectedShape
  | exchangeError (code : Option JValue) (msg : JValue)
deriving Repr

/-- Python `value == 0` for a fetched `code` field (`None` when the
key is absent).  Python booleans are integers, so `False == 0`. -/
def pyEqIntZero : Option JValue → Bool
  | some (.num n) => n == 0
  | some (.bool b) => b == false
  | _ => false

/-- Python `value == "0"` for a fetched `code` field. -/
def pyEqStrZero : Option JValue → Bool
  | some (.str s) => s == "0"
  | _ => false

/-- The success sentinel test: `code` equals numeric 0 or string "0". -/
def codeIsSuccess (code : Option JValue) : Bool :=
  pyEqIntZero code || pyEqStrZero code

/-- Python `a or b` on a fetched JSON value: keep `a` when truthy. -/
def pyOrElse (x : Option JValue) (y : JValue) : JValue :=
  match x with
  | some v => if jTruthy v then v else y
  | none => y

/-- `payload.get("msg") or payload.get("message") or "Sin detalle"`
(bitunix.py line 106). -/
def msgFallback (fields : List (String × JValue)) : JValue :=
  pyOrElse (jget fields "msg") (pyOrElse (jget fields "message") (.str "Sin detalle"))

/-- Lines 101-109 of bitunix.py: the payload must be a keyed object
and its `code` field must equal 0 or "0"; otherwise an error carrying
the code and the fallback message is raised.  On success the payload
itself is returned. -/
def checkPayload (payload : JValue) : Except BitunixError JValue :=
  match payload with
  | .obj fields =>
    let code := jget fields "code"
    if !pyEqIntZero code && !pyEqStrZero code then
      .error (.exchangeError code (msgFallback fields))
    else
      .ok (.obj fields)
  | _ => .error .unexpectedShape

/-- Credential row of the `users` table (db.py lines 14-20). -/
structure UserRow where
  discord_id : String
  api_key : String
  api_secret : String
  created_at : Int
  updated_at : Int
deriving DecidableEq, Repr

/-- `get_user` (db.py lines 67-91): select the row keyed by
`discord_id`, or `None`. -/
def get_user (table : List UserRow) (discord_id : String) : Option UserRow :=
  table.find? (fun r => r.discord_id == discord_id)

/-- `compact_json` (bitunix.py lines 25-28). -/
def compact_json : Option (List (String × JValue)) → String
  | none => ""
  | some fields => dumpJson (.obj fields)

/-- Fixed exchange host (bitunix.py line 13). -/
def BITUNIX_BASE_URL : String := "https://fapi.bitunix.com"

/-- Observable side effects of one `bitunix_request` call, in program
order: the signature computation, then the outbound HTTP request. -/
inductive Effect where
  | signatureComputed (sign : String)
  | httpRequest (method url body : String)
deriving Repr

/-- The transport's answer to one HTTP call: status, body text, and
the result of `json.loads` on that text (`none` = parse failure). -/
structure HttpReply where
  status : Nat
  text : String
  parsed : Option JValue

/-- `bitunix_request` (bitunix.py lines 45-109).  The ambient runtime
is passed explicitly: the credential table, the transport (a function
from method/url/body to a reply), and the per-call fresh `nonce` and
`timestamp` strings.  Returns the outcome together with the list of
effects performed, in order. -/
def bitunix_request (users : List UserRow) (http : String → String → String → HttpReply)
    (nonce timestamp : String) (discord_id method path : String)
    (params : Option (List (String × JValue)))
    (body : Option (List (String × JValue))) :
    Except BitunixError JValue × List Effect :=
  match get_user users discord_id with
  | none => (.error .unregistered, [])
  | some user =>
    let api_key := user.api_key
    let api_secret := user.api_secret
    let method_upper := method.toUpper
    let query_canon := canonical_query params
    let body_str := if method_upper == "GET" then "" else compact_json body
    let sign := make_sign api_key api_secret nonce timestamp query_canon body_str
    let url := BITUNIX_BASE_URL ++ path
    let reply := http method_upper url body_str
    let result : Except BitunixError JValue :=
      if reply.status != 200 then
        .error (.httpError reply.status (reply.text.take 400))
      else
        match reply.parsed with
        | none => .error (.invalidJson (reply.text.take 400))
        | some payload => checkPayload payload
    (result, [.signatureComputed sign, .httpRequest method_upper url body_str])

/-! ### Trade normalizer (`fetch_user_trades`, bitunix.py lines 126-176) -/

/-- Normalized trade record built by `fetch_user_trades`. -/
structure NormTrade where
  trade_id : String
  symbol : String
  timestamp_ms : Int
  side : String
  qty : PyFloat
  price : PyFloat
  realized_pnl : PyFloat
  fee : PyFloat
  raw_json : String
deriving DecidableEq, Repr

/-- `item.get("tradeId") is None` is false: the key is present with a
non-null value (lines 158-160 retain exactly these). -/
def tradeIdPresent (fields : List (String × JValue)) : Bool :=
  match jget fields "tradeId" with
  | none => false
  | some .null => false
  | some _ => true

/-- Fields of an object value (`[]` for non-objects; only applied to
objects). -/
def jFields : JValue → List (String × JValue)
  | .obj fs => fs
  | _ => []

/-- Lines 162-174: one retained raw entry normalized. -/
def normalizeItem (item : List (String × JValue)) : NormTrade :=
  { trade_id := pyStr ((jget item "tradeId").getD .null)
    symbol := pyStr ((jget item "symbol").getD (.str ""))
    timestamp_ms := _to_int (jget item "ctime") 0
    side := pyStr ((jget item "side").getD (.str ""))
    qty := _to_float (jget item "qty") (.finite 0)
    price := _to_float (jget item "price") (.finite 0)
    realized_pnl := _to_float (jget item "realizedPNL") (.finite 0)
    fee := _to_float (jget item "fee") (.finite 0)
    raw_json := dumpJson (.obj item) }

/-- Lines 153-174: the normalization loop.  Entries that are not
keyed records or lack a non-null `tradeId` are silently skipped. -/
def normalizeTrades : List JValue → List NormTrade
  | [] => []
  | item :: rest =>
    match item with
    | .obj fields =>
      if tradeIdPresent fields then normalizeItem fields :: normalizeTrades rest
      else normalizeTrades rest
    | _ => normalizeTrades rest

/-- Retention test of the loop, as a predicate on one raw entry. -/
def isRetained (item : JValue) : Bool :=
  match item with
  | .obj fields => tradeIdPresent fields
  | _ => false

/-- Lines 141-144 of bitunix.py: the re-test of `code` inside
`fetch_user_trades`, on the payload already returned by
`bitunix_request`. -/
def fetchRecheck (fields : List (String × JValue)) : Except BitunixError Unit :=
  let code := jget fields "code"
  if !pyEqIntZero code && !pyEqStrZero code then
    .error (.exchangeError code (msgFallback fields))
  else
    .ok ()

/-- Lines 146-151: extract `data.tradeList` when the containers have
the expected shapes, else the empty list. -/
def extractTradeList (response : List (String × JValue)) : List JValue :=
  match jget response "data" with
  | some (.obj dataFields) =>
    match jget dataFields "tradeList" with
    | some (.arr items) => items
    | _ => []
  | _ => []

/-- Lines 146-176: the pure tail of `fetch_user_trades`, from the
validated response payload to `(count, normalized trades)`. -/
def fetch_user_trades_result (response : List (String × JValue)) :
    Nat × List NormTrade :=
  let normalized := normalizeTrades (extractTradeList response)
  (normalized.length, normalized)

/-! ### Journal store (`db.py`) -/

/-- Row of the `trades` table (db.py lines 25-39).  The AUTOINCREMENT
surrogate id is the position in the table list; `note` is NULL at
insertion time. -/
structure TradeRow where
  user_discord_id : String
  trade_id : String
  symbol : String
  timestamp_ms : Int
  side : String
  qty : PyFloat
  price : PyFloat
  realized_pnl : PyFloat
  fee : PyFloat
  note : Option String
  raw_json : String
deriving DecidableEq, Repr

/-- Row built by the INSERT of `insert_trades` from one normalized
trade. -/
def rowOfTrade (discord_id : String) (t : NormTrade) : TradeRow :=
  { user_discord_id := discord_id
    trade_id := t.trade_id
    symbol := t.symbol
    timestamp_ms := t.timestamp_ms
    side := t.side
    qty := t.qty
    price := t.price
    realized_pnl := t.realized_pnl
    fee := t.fee
    note := none
    raw_json := t.raw_json }

/-- The `UNIQUE(user_discord_id, trade_id)` conflict test: does the
table already hold a row with this key? -/
def hasConflict (table : List TradeRow) (u tid : String) : Bool :=
  table.any (fun r => r.user_discord_id == u && r.trade_id == tid)

/-- The per-row loop of `insert_trades` (db.py lines 113-146):
`INSERT OR IGNORE` appends the row unless the uniqueness constraint
conflicts, and `rowcount` (1 on insert, 0 on ignore) accumulates. -/
def insertTradesGo (discord_id : String) : List NormTrade → List TradeRow → Nat × List TradeRow
  | [], table => (0, table)
  | t :: ts, table =>
    if hasConflict table discord_id t.trade_id then
      insertTradesGo discord_id ts table
    else
      let rest := insertTradesGo discord_id ts (table ++ [rowOfTrade discord_id t])
      (rest.1 + 1, rest.2)

/-- `insert_trades` (db.py lines 106-148): early exit on an empty
batch, else the insert loop.  Returns the inserted count and the
table after the transaction. -/
def insert_trades (discord_id : String) (trades : List NormTrade)
    (table : List TradeRow) : Nat × List TradeRow :=
  if trades.isEmpty then (0, table) else insertTradesGo discord_id trades table

/-- The UPDATE arm of the upsert, applied to one row: on the
conflicting primary key it sets `api_key`, `api_secret`, `updated_at`
and leaves `created_at` (and the key) alone. -/
def updateRow (discord_id api_key api_secret : String) (now : Int) (r : UserRow) : UserRow :=
  if r.discord_id == discord_id then
    { r with api_key := api_key, api_secret := api_secret, updated_at := now }
  else r

/-- `upsert_user` (db.py lines 45-64): `INSERT .. ON CONFLICT
(discord_id) DO UPDATE` keyed by the primary key; on conflict the
existing row is updated in place, otherwise a fresh row with
`created_at = updated_at = now` is appended.  `now` is the caller's
`int(time.time())`. -/
def upsert_user (discord_id api_key api_secret : String) (now : Int)
    (table : List UserRow) : List UserRow :=
  if table.any (fun r => r.discord_id == discord_id) then
    table.map (updateRow discord_id api_key api_secret now)
  else
    table ++ [⟨discord_id, api_key, api_secret, now, now⟩]

/-- Trade ids currently stored for one user. -/
def tidsOf (u : String) (table : List TradeRow) : Finset String :=
  ((table.filter (fun r => r.user_discord_id == u)).map (fun r => r.trade_id)).toFinset

/-! ### Claims -/

/-- The spec's description of the signature pipeline: one raw string
`nonce + timestamp + apiKey + canonicalQuery + canonicalBody`, a
first-pass 256-bit lowercase-hex hash of it, then the same hash of
`firstHash + apiSecret`. -/
def signSpecComposition (apiKey apiSecret nonce timestamp canonicalQuery canonicalBody : String) : String :=
  let rawString := nonce ++ timestamp ++ apiKey ++ canonicalQuery ++ canonicalBody
  let firstHash := sha256hex rawString
  sha256hex (firstHash ++ apiSecret)

/-- The first-stage hash input of `make_sign`: a function of the five
non-secret arguments only, so the secret cannot occur in it. -/
def signFirstInput (api_key nonce timestamp query_canon body_str : String) : String :=
  nonce ++ timestamp ++ api_key ++ query_canon ++ body_str

/-- C3: `make_sign` equals the spec's two-stage composition — SHA-256
hex of `nonce + timestamp + apiKey + canonicalQuery + canonicalBody`,
then SHA-256 hex of that digest followed by the secret — and its
first-stage hash input is built from the non-secret arguments alone. -/
theorem make_sign_is_two_stage_hash
    (api_key api_secret nonce timestamp query_canon body_str : String) :
    make_sign api_key api_secret nonce timestamp query_canon body_str
      = signSpecComposition api_key api_secret nonce timestamp query_canon body_str
    ∧ make_sign api_key api_secret nonce timestamp query_canon body_str
      = sha256hex (sha256hex (signFirstInput api_key nonce timestamp query_canon body_str)
          ++ api_secret) :=
  ⟨rfl, rfl⟩

/-- C5: on a keyed-object payload the response gate succeeds exactly
when `code` equals 0 or "0", and otherwise fails with the exchange
error carrying that code and the `msg`/`message`/default fallback; a
`code: 10001, msg: "invalid signature"` payload surfaces exactly that
error, and `bitunix_request` returns the gate's verdict verbatim
whenever transport and parsing succeed. -/
theorem bitunix_request_code_gate :
    (∀ fields : List (String × JValue),
      checkPayload (.obj fields)
        = if codeIsSuccess (jget fields "code") then .ok (.obj fields)
          else .error (.exchangeError (jget fields "code") (msgFallback fields)))
    ∧ checkPayload (.obj [("code", .num 10001), ("msg", .str "invalid signature")])
        = .error (.exchangeError (some (.num 10001)) (.str "invalid signature"))
    ∧ (∀ (users : List UserRow) (reply : HttpReply)
        (nonce timestamp discord_id method path : String)
        (params body : Option (List (String × JValue))) (user : UserRow) (payload : JValue),
        get_user users discord_id = some user →
        reply.status = 200 →
        reply.parsed = some payload →
        (bitunix_request users (fun _ _ _ => reply) nonce timestamp discord_id
            method path params body).1 = checkPayload payload) := by
  refine ⟨?_, rfl, ?_⟩
  · intro fields
    simp only [checkPayload, codeIsSuccess, ← Bool.not_or]
    by_cases h : (pyEqIntZero (jget fields "code") || pyEqStrZero (jget fields "code")) = true
    · simp [h]
    · simp only [Bool.not_eq_true] at h
      simp [h]
  · intro users reply nonce timestamp discord_id method path params body user payload hu hst hp
    simp [bitunix_request, hu, hst, hp]

/-- C5 witness: a registered user receiving `code: 10001,
msg: "invalid signature"` over a successful transport gets exactly
that exchange error. -/
theorem bitunix_request_code_gate_witness :
    get_user [⟨"u1", "k", "s", 0, 0⟩] "u1" = some ⟨"u1", "k", "s", 0, 0⟩
    ∧ (bitunix_request [⟨"u1", "k", "s", 0, 0⟩]
        (fun _ _ _ => ⟨200, "body",
          some (.obj [("code", .num 10001), ("msg", .str "invalid signature")])⟩)
        "n" "t" "u1" "GET" "/path" none none).1
      = .error (.exchangeError (some (.num 10001)) (.str "invalid signature")) :=
  ⟨rfl,
    (bitunix_request_code_gate.2.2 [⟨"u1", "k", "s", 0, 0⟩]
      ⟨200, "body", some (.obj [("code", .num 10001), ("msg", .str "invalid signature")])⟩
      "n" "t" "u1" "GET" "/path" none none ⟨"u1", "k", "s", 0, 0⟩
      (.obj [("code", .num 10001), ("msg", .str "invalid signature")])
      rfl rfl rfl).trans bitunix_request_code_gate.2.1⟩

/-- C6: with no credential row for the identity, `bitunix_request`
fails with the unregistered-user error and performs no effect at all:
no signature is computed and no HTTP request is issued. -/
theorem bitunix_request_unregistered_short_circuit
    (users : List UserRow) (http : String → String → String → HttpReply)
    (nonce timestamp discord_id method path : String)
    (params body : Option (List (String × JValue)))
    (h : get_user users discord_id = none) :
    bitunix_request users http nonce timestamp discord_id method path params body
      = (.error .unregistered, []) := by
  simp [bitunix_request, h]

/-- C6 witness: an empty credential table short-circuits. -/
theorem bitunix_request_unregistered_short_circuit_witness :
    get_user [] "alice" = none
    ∧ bitunix_request [] (fun _ _ _ => ⟨200, "", none⟩) "n" "t" "alice" "GET" "/p" none none
      = (.error .unregistered, []) :=
  ⟨rfl, bitunix_request_unregistered_short_circuit [] (fun _ _ _ => ⟨200, "", none⟩)
    "n" "t" "alice" "GET" "/p" none none rfl⟩

/-- C10: any payload returned (rather than raised) by the
`bitunix_request` gate is an object whose `code` re-test inside
`fetch_user_trades` necessarily passes, so that error branch cannot
fire. -/
theorem fetch_recheck_unreachable (payload result : JValue)
    (h : checkPayload payload = .ok result) :
    ∃ fields, result = .obj fields ∧ fetchRecheck fields = .ok () := by
  cases payload with
  | obj fields =>
    refine ⟨fields, ?_⟩
    revert h
    simp only [checkPayload]
    split
    · intro h
      exact absurd h (by simp)
    · next hcond =>
      intro h
      cases h
      have hc : (!pyEqIntZero (jget fields "code")
          && !pyEqStrZero (jget fields "code")) = false := by
        simpa using hcond
      exact ⟨rfl, by simp [fetchRecheck, hc]⟩
  | null => simp [checkPayload] at h
  | bool b => simp [checkPayload] at h
  | num n => simp [checkPayload] at h
  | str s => simp [checkPayload] at h
  | arr xs => simp [checkPayload] at h

/-- C10 witness: a `code: 0` payload passes the gate and the re-test. -/
theorem fetch_recheck_unreachable_witness :
    checkPayload (.obj [("code", .num 0)]) = .ok (.obj [("code", .num 0)])
    ∧ ∃ fields, (JValue.obj [("code", .num 0)]) = .obj fields ∧ fetchRecheck fields = .ok () :=
  ⟨rfl, fetch_recheck_unreachable (.obj [("code", .num 0)]) (.obj [("code", .num 0)]) rfl⟩

/-- C7: numeric coercion in the normalizer is total and tolerant —
whenever Python `float(...)`/`int(...)` would fail, the default (0.0
resp. 0) is substituted — and every retained entry's numeric fields
are produced by exactly these tolerant coercions, so no malformed
field can fail the batch. -/
theorem normalizer_tolerant_coercion :
    (∀ value : Option JValue, pyFloat? value = none → _to_float value (.finite 0) = .finite 0)
    ∧ (∀ value : Option JValue, pyInt? value = none → _to_int value 0 = 0)
    ∧ (∀ item : List (String × JValue),
        (normalizeItem item).qty = _to_float (jget item "qty") (.finite 0)
        ∧ (normalizeItem item).price = _to_float (jget item "price") (.finite 0)
        ∧ (normalizeItem item).realized_pnl = _to_float (jget item "realizedPNL") (.finite 0)
        ∧ (normalizeItem item).fee = _to_float (jget item "fee") (.finite 0)
        ∧ (normalizeItem item).timestamp_ms = _to_int (jget item "ctime") 0) := by
  refine ⟨?_, ?_, fun item => ⟨rfl, rfl, rfl, rfl, rfl⟩⟩
  · intro v h
    simp [_to_float, h]
  · intro v h
    simp [_to_int, h]

/-- C7 witness: the non-numeric string "abc", a missing key, and a
wrong-typed value all coerce to the default, and an entry with
`price: "abc"` normalizes to price 0.0. -/
theorem normalizer_tolerant_coercion_witness :
    (pyFloat? (some (.str "abc")) = none
      ∧ _to_float (some (.str "abc")) (.finite 0) = .finite 0)
    ∧ (pyFloat? none = none ∧ _to_float none (.finite 0) = .finite 0)
    ∧ (pyFloat? (some (.arr [])) = none ∧ _to_float (some (.arr [])) (.finite 0) = .finite 0)
    ∧ (pyInt? (some (.str "12x")) = none ∧ _to_int (some (.str "12x")) 0 = 0)
    ∧ (normalizeItem [("tradeId", .str "1"), ("price", .str "abc")]).price = .finite 0 :=
  ⟨⟨rfl, normalizer_tolerant_coercion.1 (some (.str "abc")) rfl⟩,
    ⟨rfl, normalizer_tolerant_coercion.1 none rfl⟩,
    ⟨rfl, normalizer_tolerant_coercion.1 (some (.arr [])) rfl⟩,
    ⟨rfl, normalizer_tolerant_coercion.2.1 (some (.str "12x")) rfl⟩,
    rfl⟩

/-- C8: normalization keeps exactly the keyed records with a
present, non-null `tradeId` — in input order, as a filter-then-map —
the reported count equals the number of retained entries, and the
spec's two-entry example keeps exactly one. -/
theorem normalize_trades_filter_order :
    (∀ l : List JValue,
      normalizeTrades l
        = (l.filter isRetained).map (fun item => normalizeItem (jFields item)))
    ∧ (∀ response : List (String × JValue),
      (fetch_user_trades_result response).1 = (fetch_user_trades_result response).2.length)
    ∧ (normalizeTrades
        [.obj [("tradeId", .str "1"), ("qty", .str "2")], .obj [("qty", .str "3")]]).length
      = 1 := by
  refine ⟨?_, fun response => rfl, rfl⟩
  intro l
  induction l with
  | nil => rfl
  | cons item rest ih =>
    cases item with
    | obj fields =>
      by_cases h : tradeIdPresent fields = true
      · simp [normalizeTrades, isRetained, jFields, h, ih, List.filter_cons]
      · simp only [Bool.not_eq_true] at h
        simp [normalizeTrades, isRetained, h, ih, List.filter_cons]
    | null => simp [normalizeTrades, isRetained, ih, List.filter_cons]
    | bool b => simp [normalizeTrades, isRetained, ih, List.filter_cons]
    | num n => simp [normalizeTrades, isRetained, ih, List.filter_cons]
    | str s => simp [normalizeTrades, isRetained, ih, List.filter_cons]
    | arr xs => simp [normalizeTrades, isRetained, ih, List.filter_cons]

/-- `charListLt` is irreflexive. -/
theorem charListLt_irrefl : ∀ as, charListLt as as = false
  | [] => rfl
  | a :: as => by simp [charListLt, charListLt_irrefl as]

/-- `charListLt` is transitive. -/
theorem charListLt_trans : ∀ as bs cs, charListLt as bs = true → charListLt bs cs = true →
    charListLt as cs = true := by
  intro as
  induction as with
  | nil =>
    intro bs cs h1 h2
    cases bs with
    | nil => simp [charListLt] at h1
    | cons b bs =>
      cases cs with
      | nil => simp [charListLt] at h2
      | cons c cs => rfl
  | cons a as ih =>
    intro bs cs h1 h2
    cases bs with
    | nil => simp [charListLt] at h1
    | cons b bs =>
      cases cs with
      | nil => simp [charListLt] at h2
      | cons c cs =>
        simp only [charListLt] at h1 h2 ⊢
        rcases Nat.lt_trichotomy a.toNat b.toNat with hab | hab | hab
        · rcases Nat.lt_trichotomy b.toNat c.toNat with hbc | hbc | hbc
          · simp [show a.toNat < c.toNat from hab.trans hbc]
          · simp [show a.toNat < c.toNat from hbc ▸ hab]
          · simp [show ¬ b.toNat < c.toNat by omega, show c.toNat < b.toNat from hbc] at h2
        · simp only [show ¬ a.toNat < b.toNat by omega, if_false,
            show ¬ b.toNat < a.toNat by omega] at h1
          rcases Nat.lt_trichotomy b.toNat c.toNat with hbc | hbc | hbc
          · simp [show a.toNat < c.toNat by omega]
          · simp only [show ¬ b.toNat < c.toNat by omega, if_false,
              show ¬ c.toNat < b.toNat by omega] at h2
            simp only [show ¬ a.toNat < c.toNat by omega, if_false,
              show ¬ c.toNat < a.toNat by omega]
            exact ih bs cs (by simpa using h1) (by simpa using h2)
          · simp [show ¬ b.toNat < c.toNat by omega, show c.toNat < b.toNat from hbc] at h2
        · simp [show ¬ a.toNat < b.toNat by omega, show b.toNat < a.toNat from hab] at h1

/-- Two character lists neither of which is below the other are
equal. -/
theorem charListLt_connex : ∀ as bs, charListLt as bs = false → charListLt bs as = false →
    as = bs := by
  intro as
  induction as with
  | nil =>
    intro bs h1 _
    cases bs with
    | nil => rfl
    | cons b bs => simp [charListLt] at h1
  | cons a as ih =>
    intro bs h1 h2
    cases bs with
    | nil => simp [charListLt] at h2
    | cons b bs =>
      simp only [charListLt] at h1 h2
      rcases Nat.lt_trichotomy a.toNat b.toNat with hab | hab | hab
      · simp [hab] at h1
      · have hc : a = b := Char.ext (UInt32.ext hab)
        simp only [show ¬ a.toNat < b.toNat by omega, if_false,
          show ¬ b.toNat < a.toNat by omega] at h1 h2
        rw [hc, ih bs (by simpa using h1) (by simpa using h2)]
      · simp [hab] at h2

/-- `pairLe` is total. -/
theorem pairLe_total : ∀ p q : String × String, pairLeR p q ∨ pairLeR q p := by
  rintro ⟨p1, p2⟩ ⟨q1, q2⟩
  simp only [pairLeR, pairLe, Bool.or_eq_true, Bool.and_eq_true, beq_iff_eq]
  by_cases h1 : strLt p1 q1 = true
  · exact Or.inl (Or.inl h1)
  · by_cases h2 : strLt q1 p1 = true
    · exact Or.inr (Or.inl h2)
    · have hkey : p1 = q1 := String.ext (charListLt_connex p1.data q1.data
        (by simpa [strLt] using h1) (by simpa [strLt] using h2))
      by_cases h3 : strLt p2 q2 = true
      · exact Or.inl (Or.inr ⟨hkey, Or.inl h3⟩)
      · by_cases h4 : strLt q2 p2 = true
        · exact Or.inr (Or.inr ⟨hkey.symm, Or.inl h4⟩)
        · have hval : p2 = q2 := String.ext (charListLt_connex p2.data q2.data
            (by simpa [strLt] using h3) (by simpa [strLt] using h4))
          exact Or.inl (Or.inr ⟨hkey, Or.inr hval⟩)

/-- `strLt` cannot hold in both directions. -/
theorem strLt_asymm {s t : String} (h1 : strLt s t = true) (h2 : strLt t s = true) : False := by
  have := charListLt_trans s.data t.data s.data h1 h2
  rw [charListLt_irrefl] at this
  exact Bool.false_ne_true this

/-- `pairLe` is transitive. -/
theorem pairLe_trans : ∀ p q r : String × String, pairLeR p q → pairLeR q r → pairLeR p r := by
  rintro ⟨p1, p2⟩ ⟨q1, q2⟩ ⟨r1, r2⟩ h1 h2
  simp only [pairLeR, pairLe, Bool.or_eq_true, Bool.and_eq_true, beq_iff_eq] at h1 h2 ⊢
  rcases h1 with h1 | ⟨rfl, h1⟩
  · rcases h2 with h2 | ⟨rfl, _⟩
    · exact Or.inl (charListLt_trans _ _ _ h1 h2)
    · exact Or.inl h1
  · rcases h2 with h2 | ⟨rfl, h2⟩
    · exact Or.inl h2
    · rcases h1 with h1 | rfl
      · rcases h2 with h2 | rfl
        · exact Or.inr ⟨rfl, Or.inl (charListLt_trans _ _ _ h1 h2)⟩
        · exact Or.inr ⟨rfl, Or.inl h1⟩
      · exact Or.inr ⟨rfl, h2⟩

/-- `pairLe` is antisymmetric. -/
theorem pairLe_antisymm : ∀ p q : String × String, pairLeR p q → pairLeR q p → p = q := by
  rintro ⟨p1, p2⟩ ⟨q1, q2⟩ h1 h2
  simp only [pairLeR, pairLe, Bool.or_eq_true, Bool.and_eq_true, beq_iff_eq] at h1 h2
  rcases h1 with h1 | ⟨rfl, h1⟩
  · rcases h2 with h2 | ⟨rfl, _⟩
    · exact (strLt_asymm h1 h2).elim
    · exact absurd h1 (by simp [strLt, charListLt_irrefl])
  · rcases h2 with h2 | ⟨_, h2⟩
    · exact absurd h2 (by simp [strLt, charListLt_irrefl])
    · rcases h1 with h1 | rfl
      · rcases h2 with h2 | rfl
        · exact (strLt_asymm h1 h2).elim
        · exact absurd h1 (by simp [strLt, charListLt_irrefl])
      · rfl

/-- C2: `canonical_query` is invariant under permutation of the
key/value pairs — it is a pure function of the set of pairs — and an
empty or absent mapping canonicalizes to the empty string; on a
concrete mapping it produces the sorted, separator-free
concatenation. -/
theorem canonical_query_perm_invariant :
    (∀ p₁ p₂ : List (String × JValue), p₁.Perm p₂ →
      canonical_query (some p₁) = canonical_query (some p₂))
    ∧ canonical_query none = ""
    ∧ canonical_query (some []) = ""
    ∧ canonical_query (some [("b", .num 2), ("a", .str "x")]) = "axb2" := by
  refine ⟨?_, rfl, rfl, rfl⟩
  intro p₁ p₂ h
  have hlen : p₁.length = p₂.length := h.length_eq
  simp only [canonical_query]
  by_cases he : p₁.isEmpty = true
  · have he₂ : p₂.isEmpty = true := by
      rw [List.isEmpty_iff_length_eq_zero] at he ⊢
      omega
    simp [he, he₂]
  · have he₂ : ¬ p₂.isEmpty = true := by
      rw [List.isEmpty_iff_length_eq_zero] at he ⊢
      omega
    simp only [he, he₂, if_false]
    haveI : IsTotal (String × String) pairLeR := ⟨pairLe_total⟩
    haveI : IsTrans (String × String) pairLeR := ⟨pairLe_trans⟩
    haveI : IsAntisymm (String × String) pairLeR := ⟨pairLe_antisymm⟩
    have hsort : (p₁.map (fun kv =>
          ((kv.1 : String), match kv.2 with | .null => "" | v => pyStr v))).insertionSort pairLeR
        = (p₂.map (fun kv =>
          (kv.1, match kv.2 with | .null => "" | v => pyStr v))).insertionSort pairLeR := by
      exact List.eq_of_perm_of_sorted
        ((List.perm_insertionSort pairLeR _).trans
          ((h.map _).trans (List.perm_insertionSort pairLeR _).symm))
        (List.sorted_insertionSort pairLeR _)
        (List.sorted_insertionSort pairLeR _)
    rw [hsort]

/-- C2 witness: a two-entry mapping and its transposition
canonicalize identically. -/
theorem canonical_query_perm_invariant_witness :
    ([("b", JValue.num 2), ("a", JValue.str "x")].Perm
      [("a", JValue.str "x"), ("b", JValue.num 2)])
    ∧ canonical_query (some [("b", JValue.num 2), ("a", JValue.str "x")])
      = canonical_query (some [("a", JValue.str "x"), ("b", JValue.num 2)]) :=
  ⟨List.Perm.swap _ _ _,
    canonical_query_perm_invariant.1 _ _ (List.Perm.swap _ _ _)⟩

/-- The conflict test holds exactly when the trade id is already
stored for the user. -/
theorem hasConflict_iff (table : List TradeRow) (u tid : String) :
    hasConflict table u tid = true ↔ tid ∈ tidsOf u table := by
  simp only [hasConflict, tidsOf, List.any_eq_true, List.mem_toFinset, List.mem_map,
    List.mem_filter, Bool.and_eq_true, beq_iff_eq]
  constructor
  · rintro ⟨r, hr, hu, ht⟩
    exact ⟨r, ⟨hr, hu⟩, ht⟩
  · rintro ⟨r, ⟨hr, hu⟩, ht⟩
    exact ⟨r, hr, hu, ht⟩

/-- Appending a fresh row for user `u` adds its trade id to the
stored set. -/
theorem tidsOf_append_self (u : String) (table : List TradeRow) (t : NormTrade) :
    tidsOf u (table ++ [rowOfTrade u t]) = insert t.trade_id (tidsOf u table) := by
  simp only [tidsOf, List.filter_append, List.map_append, List.toFinset_append]
  have : List.filter (fun r => r.user_discord_id == u) [rowOfTrade u t] = [rowOfTrade u t] := by
    simp [rowOfTrade]
  rw [this]
  simp only [List.map_cons, List.map_nil, List.toFinset_cons, List.toFinset_nil, rowOfTrade]
  rw [Finset.union_comm, Finset.insert_eq]
  rfl

/-- Inserting into the left operand of a difference is absorbed when
the element is already removed by the right operand. -/
theorem insert_sdiff_eq_of_mem {α : Type} [DecidableEq α] (a : α) (T S : Finset α)
    (ha : a ∈ S) : insert a T \ S = T \ S := by
  ext x
  simp only [Finset.mem_sdiff, Finset.mem_insert]
  constructor
  · rintro ⟨rfl | hx, hs⟩
    · exact absurd ha hs
    · exact ⟨hx, hs⟩
  · rintro ⟨hx, hs⟩
    exact ⟨Or.inr hx, hs⟩

/-- Cardinality of a difference after inserting a fresh element on the
left equals moving that element to the right and adding one. -/
theorem card_insert_sdiff {α : Type} [DecidableEq α] (a : α) (T S : Finset α)
    (ha : a ∉ S) : (insert a T \ S).card = (T \ insert a S).card + 1 := by
  have h1 : insert a T \ S = insert a (T \ S) := by
    ext x
    simp only [Finset.mem_sdiff, Finset.mem_insert]
    constructor
    · rintro ⟨rfl | hx, hs⟩
      · exact Or.inl rfl
      · exact Or.inr ⟨hx, hs⟩
    · rintro (rfl | ⟨hx, hs⟩)
      · exact ⟨Or.inl rfl, ha⟩
      · exact ⟨Or.inr hx, hs⟩
  rw [h1, Finset.sdiff_insert]
  by_cases hm : a ∈ T \ S
  · rw [Finset.insert_eq_self.mpr hm, Finset.card_erase_of_mem hm]
    have hpos : 0 < (T \ S).card := Finset.card_pos.mpr ⟨a, hm⟩
    omega
  · rw [Finset.card_insert_of_not_mem hm, Finset.erase_eq_of_not_mem hm]

/-- The insert loop's count is the number of batch trade ids not yet
stored for the user. -/
theorem insertTradesGo_count (u : String) : ∀ (ts : List NormTrade) (table : List TradeRow),
    (insertTradesGo u ts table).1
      = ((ts.map (fun t => t.trade_id)).toFinset \ tidsOf u table).card := by
  intro ts
  induction ts with
  | nil =>
    intro table
    simp [insertTradesGo]
  | cons t ts ih =>
    intro table
    by_cases hc : hasConflict table u t.trade_id = true
    · simp only [insertTradesGo, if_pos hc]
      rw [ih table, List.map_cons, List.toFinset_cons,
        insert_sdiff_eq_of_mem _ _ _ ((hasConflict_iff table u t.trade_id).mp hc)]
    · simp only [insertTradesGo, if_neg hc]
      have ha : t.trade_id ∉ tidsOf u table :=
        fun m => hc ((hasConflict_iff table u t.trade_id).mpr m)
      rw [ih (table ++ [rowOfTrade u t]), tidsOf_append_self, List.map_cons,
        List.toFinset_cons, card_insert_sdiff _ _ _ ha]

/-- Rows already in the table survive the insert loop. -/
theorem insertTradesGo_mem_mono (u : String) : ∀ (ts : List NormTrade) (table : List TradeRow)
    (r : TradeRow), r ∈ table → r ∈ (insertTradesGo u ts table).2 := by
  intro ts
  induction ts with
  | nil =>
    intro table r hr
    simpa [insertTradesGo] using hr
  | cons t ts ih =>
    intro table r hr
    by_cases hc : hasConflict table u t.trade_id = true
    · simp only [insertTradesGo, if_pos hc]
      exact ih table r hr
    · simp only [insertTradesGo, if_neg hc]
      exact ih _ r (List.mem_append_left _ hr)

/-- A conflict persists when the table only grows. -/
theorem hasConflict_mono (t₁ t₂ : List TradeRow) (u tid : String)
    (hsub : ∀ r, r ∈ t₁ → r ∈ t₂) (h : hasConflict t₁ u tid = true) :
    hasConflict t₂ u tid = true := by
  simp only [hasConflict, List.any_eq_true] at h ⊢
  obtain ⟨r, hr, hp⟩ := h
  exact ⟨r, hsub r hr, hp⟩

/-- After the insert loop, every batch trade conflicts with the
resulting table. -/
theorem insertTradesGo_conflict_after (u : String) :
    ∀ (ts : List NormTrade) (table : List TradeRow) (t : NormTrade), t ∈ ts →
      hasConflict (insertTradesGo u ts table).2 u t.trade_id = true := by
  intro ts
  induction ts with
  | nil =>
    intro table t ht
    simp at ht
  | cons t' ts ih =>
    intro table t ht
    by_cases hc : hasConflict table u t'.trade_id = true
    · simp only [insertTradesGo, if_pos hc]
      rcases List.mem_cons.mp ht with rfl | ht'
      · exact hasConflict_mono table _ u t.trade_id
          (fun r hr => insertTradesGo_mem_mono u ts table r hr) hc
      · exact ih table t ht'
    · simp only [insertTradesGo, if_neg hc]
      rcases List.mem_cons.mp ht with rfl | ht'
      · apply hasConflict_mono (table ++ [rowOfTrade u t]) _ u t.trade_id
          (fun r hr => insertTradesGo_mem_mono u ts _ r hr)
        simp [hasConflict, rowOfTrade]
      · exact ih _ t ht'

/-- When every batch trade already conflicts, the loop is a no-op. -/
theorem insertTradesGo_noop (u : String) : ∀ (ts : List NormTrade) (table : List TradeRow),
    (∀ t ∈ ts, hasConflict table u t.trade_id = true) →
    insertTradesGo u ts table = (0, table) := by
  intro ts
  induction ts with
  | nil =>
    intro table _
    rfl
  | cons t ts ih =>
    intro table h
    have hc := h t (List.mem_cons_self t ts)
    simp only [insertTradesGo, if_pos hc]
    exact ih table (fun t' ht' => h t' (List.mem_cons_of_mem t ht'))

/-- C1: on a table with no rows for the user, `insert_trades` first
returns the number of distinct trade ids in the batch (conflicting
rows inside the batch are silently skipped, never errors and never
updates), and replaying the same batch returns 0 and leaves the whole
table — in particular the user's row count — unchanged. -/
theorem insert_trades_idempotent (u : String) (ts : List NormTrade) (table : List TradeRow)
    (h : ∀ r ∈ table, r.user_discord_id ≠ u) :
    (insert_trades u ts table).1 = ((ts.map (fun t => t.trade_id)).dedup).length
    ∧ insert_trades u ts (insert_trades u ts table).2
        = (0, (insert_trades u ts table).2) := by
  have hempty : tidsOf u table = ∅ := by
    have hfil : table.filter (fun r => r.user_discord_id == u) = [] := by
      rw [List.filter_eq_nil_iff]
      intro r hr
      simpa using h r hr
    simp [tidsOf, hfil]
  rcases ts with _ | ⟨t, ts'⟩
  · simp [insert_trades]
  · constructor
    · rw [insert_trades, if_neg (by simp), insertTradesGo_count, hempty, Finset.sdiff_empty,
        List.card_toFinset]
    · rw [insert_trades, if_neg (by simp), insert_trades, if_neg (by simp)]
      exact insertTradesGo_noop u (t :: ts') _
        (fun t' ht' => insertTradesGo_conflict_after u (t :: ts') table t' ht')

/-- C1 witness: two distinct trades inserted into an empty table give
count 2, and replaying them gives count 0 with the table unchanged. -/
theorem insert_trades_idempotent_witness :
    (insert_trades "U1"
      [⟨"T1", "S", 1, "BUY", .finite 0, .finite 0, .finite 0, .finite 0, "r1"⟩,
       ⟨"T2", "S", 2, "SELL", .finite 0, .finite 0, .finite 0, .finite 0, "r2"⟩] []).1 = 2
    ∧ insert_trades "U1"
        [⟨"T1", "S", 1, "BUY", .finite 0, .finite 0, .finite 0, .finite 0, "r1"⟩,
         ⟨"T2", "S", 2, "SELL", .finite 0, .finite 0, .finite 0, .finite 0, "r2"⟩]
        (insert_trades "U1"
          [⟨"T1", "S", 1, "BUY", .finite 0, .finite 0, .finite 0, .finite 0, "r1"⟩,
           ⟨"T2", "S", 2, "SELL", .finite 0, .finite 0, .finite 0, .finite 0, "r2"⟩] []).2
      = (0, (insert_trades "U1"
          [⟨"T1", "S", 1, "BUY", .finite 0, .finite 0, .finite 0, .finite 0, "r1"⟩,
           ⟨"T2", "S", 2, "SELL", .finite 0, .finite 0, .finite 0, .finite 0, "r2"⟩] []).2) := by
  have h := insert_trades_idempotent "U1"
    [⟨"T1", "S", 1, "BUY", .finite 0, .finite 0, .finite 0, .finite 0, "r1"⟩,
     ⟨"T2", "S", 2, "SELL", .finite 0, .finite 0, .finite 0, .finite 0, "r2"⟩] []
    (by intro r hr; simp at hr)
  exact ⟨h.1.trans (by rfl), h.2⟩

/-- Effect of the UPDATE arm over a table with unique keys holding a
matching row: the matching row is replaced (keeping `created_at`),
exactly one row matches afterwards, and all other rows are untouched. -/
theorem updateRow_map_spec (id key secret : String) (now : Int) :
    ∀ (table : List UserRow), (table.map (fun r => r.discord_id)).Nodup →
      ∀ r₀, table.find? (fun r => r.discord_id == id) = some r₀ →
      ((table.map (updateRow id key secret now)).find? (fun r => r.discord_id == id)
          = some ⟨id, key, secret, r₀.created_at, now⟩
        ∧ (table.map (updateRow id key secret now)).countP (fun r => r.discord_id == id) = 1
        ∧ (table.map (updateRow id key secret now)).filter (fun r => !(r.discord_id == id))
            = table.filter (fun r => !(r.discord_id == id))) := by
  intro table
  induction table with
  | nil =>
    intro _ r₀ hfind
    simp at hfind
  | cons r rest ih =>
    intro hnd r₀ hfind
    rw [List.map_cons, List.nodup_cons] at hnd
    obtain ⟨hnin, hnd'⟩ := hnd
    by_cases hr : (r.discord_id == id) = true
    · have hr₀ : r₀ = r := by
        rw [List.find?_cons_of_pos (p := fun (r : UserRow) => r.discord_id == id) rest hr] at hfind
        exact (Option.some_inj.mp hfind).symm
      subst hr₀
      have hid : r₀.discord_id = id := eq_of_beq hr
      have hrest : ∀ x ∈ rest, ¬ (x.discord_id == id) = true := by
        intro x hx hbx
        exact hnin (hid ▸ eq_of_beq hbx ▸ List.mem_map.mpr ⟨x, hx, rfl⟩)
      have hmapid : rest.map (updateRow id key secret now) = rest := by
        have hcong : ∀ x ∈ rest, updateRow id key secret now x = x := by
          intro x hx
          simp [updateRow, hrest x hx]
        exact (List.map_congr_left hcong).trans (List.map_id' rest)
      have hupd : updateRow id key secret now r₀ = ⟨id, key, secret, r₀.created_at, now⟩ := by
        simp only [updateRow, hr, if_pos]
        cases r₀
        simp_all
      refine ⟨?_, ?_, ?_⟩
      · rw [List.map_cons, hupd]
        exact List.find?_cons_of_pos (p := fun (r : UserRow) => r.discord_id == id) _ (by simp)
      · rw [List.map_cons, List.countP_cons, hmapid, hupd]
        have hz : rest.countP (fun r => r.discord_id == id) = 0 :=
          List.countP_eq_zero.mpr hrest
        simp [hz]
      · rw [List.map_cons, List.filter_cons, List.filter_cons, hmapid, hupd]
        simp [hid]
    · rw [List.find?_cons_of_neg (p := fun (r : UserRow) => r.discord_id == id) rest hr] at hfind
      obtain ⟨h1, h2, h3⟩ := ih hnd' r₀ hfind
      have hkeep : updateRow id key secret now r = r := by
        simp [updateRow, hr]
      refine ⟨?_, ?_, ?_⟩
      · rw [List.map_cons, hkeep,
          List.find?_cons_of_neg (p := fun (r : UserRow) => r.discord_id == id) _ hr, h1]
      · rw [List.map_cons, List.countP_cons, hkeep, h2]
        simp [hr]
      · rw [List.map_cons, List.filter_cons, List.filter_cons, hkeep, h3]

/-- C9: `upsert_user` is insert-or-replace keyed by identity — when a
row exists, the second upsert replaces `api_key`/`api_secret`, sets
`updated_at := now`, preserves the original `created_at`, leaves
exactly one row for the identity and every other row untouched; when
no row exists, it appends one with `created_at = updated_at = now`. -/
theorem upsert_user_spec (id key secret : String) (now : Int) (table : List UserRow)
    (hnd : (table.map (fun r => r.discord_id)).Nodup) :
    (∀ r₀, get_user table id = some r₀ →
      get_user (upsert_user id key secret now table) id
          = some ⟨id, key, secret, r₀.created_at, now⟩
        ∧ (upsert_user id key secret now table).countP (fun r => r.discord_id == id) = 1
        ∧ (upsert_user id key secret now table).filter (fun r => !(r.discord_id == id))
            = table.filter (fun r => !(r.discord_id == id)))
    ∧ (get_user table id = none →
      upsert_user id key secret now table = table ++ [⟨id, key, secret, now, now⟩]) := by
  constructor
  · intro r₀ hfind
    simp only [get_user] at hfind
    have hany : table.any (fun r => r.discord_id == id) = true :=
      List.any_eq_true.mpr
        ⟨r₀, List.mem_of_find?_eq_some hfind,
          List.find?_some (p := fun (r : UserRow) => r.discord_id == id) hfind⟩
    simp only [get_user, upsert_user, hany, if_true]
    exact updateRow_map_spec id key secret now table hnd r₀ hfind
  · intro hfind
    simp only [get_user] at hfind
    have hany : table.any (fun r => r.discord_id == id) = false :=
      List.any_eq_false.mpr (by simpa using List.find?_eq_none.mp hfind)
    simp [upsert_user, hany]

/-- C9 witness: re-registering an existing identity replaces the
credentials and timestamps but keeps `created_at`; a fresh identity is
appended with `created_at = updated_at`. -/
theorem upsert_user_spec_witness :
    get_user [⟨"u1", "k0", "s0", 5, 7⟩] "u1" = some ⟨"u1", "k0", "s0", 5, 7⟩
    ∧ get_user (upsert_user "u1" "k1" "s1" 9 [⟨"u1", "k0", "s0", 5, 7⟩]) "u1"
        = some ⟨"u1", "k1", "s1", 5, 9⟩
    ∧ upsert_user "u2" "k2" "s2" 3 [⟨"u1", "k0", "s0", 5, 7⟩]
        = [⟨"u1", "k0", "s0", 5, 7⟩, ⟨"u2", "k2", "s2", 3, 3⟩] :=
  ⟨rfl,
    ((upsert_user_spec "u1" "k1" "s1" 9 [⟨"u1", "k0", "s0", 5, 7⟩] (by simp)).1
      ⟨"u1", "k0", "s0", 5, 7⟩ rfl).1,
    (upsert_user_spec "u2" "k2" "s2" 3 [⟨"u1", "k0", "s0", 5, 7⟩] (by simp)).2 rfl⟩
